import Mathlib

/-!
# Verification of the safe-json validator combinator library

Shallow embedding of the `@ryannhg/safe-json` TypeScript library:
dynamically-typed JSON-like values, the `Result` and `Problem` data types,
the `Validator` wrapper (`toValidator` producing `run` / `worksWith`), the
primitive checks (`expecting`, `expectingNull`) and the three combinators
(`expectingObject`, `expectingArray`, `expectingOptional`), followed by
theorems settling the specification's claims about them.
-/

namespace SafeJson

/-- A JavaScript number: either a finite value (modelled as a rational,
which covers every JSON numeric literal) or one of the three non-finite
IEEE values `NaN`, `Infinity`, `-Infinity`.  All of these have host
`typeof` equal to `"number"`. -/
inductive JsNum where
  | finite (q : Rat)
  | nan
  | inf
  | negInf
deriving DecidableEq

/-- A host-language dynamically-typed value tree: the values a validator can
be fed (nested booleans, numbers, strings, `null`, arrays, key/value
objects, plus `undefined` for absent values).  Object entries are kept in
insertion order; property lookup takes the first matching key. -/
inductive JsValue where
  | undefined
  | null
  | bool (b : Bool)
  | num (n : JsNum)
  | str (s : String)
  | arr (elems : List JsValue)
  | obj (entries : List (String × JsValue))

/-- The host identity test `data === null` is decidable by inspecting the
head constructor. -/
instance decNullEq : (v : JsValue) → Decidable (v = JsValue.null)
  | .undefined => .isFalse (fun h => JsValue.noConfusion h)
  | .null => .isTrue rfl
  | .bool _ => .isFalse (fun h => JsValue.noConfusion h)
  | .num _ => .isFalse (fun h => JsValue.noConfusion h)
  | .str _ => .isFalse (fun h => JsValue.noConfusion h)
  | .arr _ => .isFalse (fun h => JsValue.noConfusion h)
  | .obj _ => .isFalse (fun h => JsValue.noConfusion h)

/-- The host `typeof` operator: `"object"` for `null`, arrays and plain
objects alike; the usual primitive names otherwise. -/
def jsTypeof : JsValue → String
  | .undefined => "undefined"
  | .null => "object"
  | .bool _ => "boolean"
  | .num _ => "number"
  | .str _ => "string"
  | .arr _ => "object"
  | .obj _ => "object"

/-- `Utils.typeOf` from `src/utils.ts`:
`data instanceof Array ? 'array' : data === null ? 'null' : typeof data`. -/
def Utils.typeOf : JsValue → String
  | .arr _ => "array"
  | .null => "null"
  | v => jsTypeof v

/-- Decimal digit parse over a character list (accumulator form), used to
recognise array-index property keys. -/
def decimalNat? : List Char → Nat → Option Nat
  | [], acc => some acc
  | c :: cs, acc =>
      if 48 ≤ c.toNat ∧ c.toNat ≤ 57 then
        decimalNat? cs (acc * 10 + (c.toNat - 48))
      else
        none

/-- The canonical array-index reading of a property key, as JS array element
lookup uses it: a nonempty all-digit key with no leading zero (except the
single key `"0"` itself). -/
def jsArrayIndex? (key : String) : Option Nat :=
  match key.data with
  | [] => none
  | ['0'] => some 0
  | '0' :: _ => none
  | cs => decimalNat? cs 0

/-- JavaScript property access `data[key]` restricted to the value forms a
validator meets: lookup (first occurrence) in an object, `length` and
canonical numeric indices on an array, `undefined` everywhere else. -/
def getProp (data : JsValue) (key : String) : JsValue :=
  match data with
  | .obj entries =>
      match entries.lookup key with
      | some v => v
      | none => .undefined
  | .arr elems =>
      if key = "length" then .num (.finite (elems.length : Rat))
      else
        match jsArrayIndex? key with
        | some i => elems.getD i .undefined
        | none => .undefined
  | _ => .undefined

/-- `Result<value, reason>` from `src/result.ts`: a two-variant outcome,
`pass` with a value or `fail` with a reason. -/
inductive Result (value reason : Type) where
  | pass (value : value)
  | fail (reason : reason)

/-- `Problem` from `src/problem.ts`: a recursive description of a validation
failure — a plain expectation mismatch, or an inner problem wrapped with the
object field name (kind `'field'`) or array index (kind `'index'`) at which
it occurred. -/
inductive Problem where
  | expectation (expected : String) (actual : String)
  | field (field : String) (problem : Problem)
  | index (index : Nat) (problem : Problem)
deriving DecidableEq

/-- `Problem.toString` from `src/problem.ts`: renders a problem recursively
using the source's template literals. -/
def Problem.toString : Problem → String
  | .expectation expected actual => s!"Expected {expected}, got {actual}."
  | .field f p => s!"Problem with field \"{f}\": {Problem.toString p}"
  | .index i p => s!"Problem at index \"{i}\": {Problem.toString p}"

/-- `Validator<value>` from `src/index.ts`, in untyped (JS-runtime) form:
it holds the one classification function `toResult` that every entry point
funnels through. -/
structure Validator where
  toResult : JsValue → Result JsValue Problem

/-- The `run` entry point built by `toValidator`: branch on `toResult data`,
calling `onPass` with the value on a pass and `onFail` with the reason on a
fail.  The source's union return type `T | U` is modelled by letting the
caller pick the common result type `α` (e.g. a sum type). -/
def Validator.run {α : Type} (v : Validator) (data : JsValue)
    (onPass : JsValue → α) (onFail : Problem → α) : α :=
  match v.toResult data with
  | .pass value => onPass value
  | .fail reason => onFail reason

/-- The `worksWith` entry point built by `toValidator`:
`toResult(data).kind === 'pass'`. -/
def Validator.worksWith (v : Validator) (data : JsValue) : Bool :=
  match v.toResult data with
  | .pass _ => true
  | .fail _ => false

/-- `toValidator` from `src/index.ts`: wraps a classification function as a
`Validator` (whose `run`/`worksWith` are the derived entry points above). -/
def toValidator (toResult : JsValue → Result JsValue Problem) : Validator :=
  ⟨toResult⟩

/-- `expecting` from `src/index.ts`: `typeof data === expected` passes with
the data itself, anything else fails with
`Expectation{actual: Utils.typeOf(data), expected}`. -/
def expecting (expected : String) (data : JsValue) : Result JsValue Problem :=
  if jsTypeof data = expected then
    .pass data
  else
    .fail (.expectation expected (Utils.typeOf data))

/-- `expectingNull` from `src/index.ts`: identity test `data === null`. -/
def expectingNull (data : JsValue) : Result JsValue Problem :=
  if data = JsValue.null then
    .pass data
  else
    .fail (.expectation "null" (Utils.typeOf data))

/-- The element loop of `expectingArray`: run the child validator on each
element in index order; the first failing element aborts the loop with
`IndexProblem{index, problem}`; otherwise collect the validated values in
order. -/
def expectingArrayLoop (validator : Validator) :
    List JsValue → Nat → Result (List JsValue) Problem
  | [], _ => .pass []
  | x :: xs, index =>
      validator.run x
        (fun value =>
          match expectingArrayLoop validator xs (index + 1) with
          | .pass values => .pass (value :: values)
          | .fail reason => .fail reason)
        (fun reason => .fail (.index index reason))

/-- `expectingArray` from `src/index.ts`: `data instanceof Array` guards the
element loop; any non-array fails with
`Expectation{actual: Utils.typeOf(data), expected: 'array'}`; a fully
passing loop yields the freshly built array of validated values. -/
def expectingArray (validator : Validator) (data : JsValue) :
    Result JsValue Problem :=
  match data with
  | .arr elems =>
      match expectingArrayLoop validator elems 0 with
      | .pass values => .pass (.arr values)
      | .fail reason => .fail reason
  | _ => .fail (.expectation "array" (Utils.typeOf data))

/-- `expectingOptional` from `src/index.ts`: run the child validator; pass
through its value on success, pass `undefined` on any failure. -/
def expectingOptional (validator : Validator) (data : JsValue) :
    Result JsValue Problem :=
  validator.run data
    (fun value => .pass value)
    (fun _ => .pass .undefined)

/-- The field loop of `expectingObject`: iterate the declared fields in
declaration order, running each field's validator on `data[key]`; the first
failing field aborts the loop with `FieldProblem{field: key, problem}`;
otherwise build the output object entries `obj[key] = value` in declaration
order (the keys of a JS fields object are distinct, so successive
assignments are successive entries). -/
def expectingObjectLoop (data : JsValue) :
    List (String × Validator) → Result (List (String × JsValue)) Problem
  | [] => .pass []
  | (key, validator) :: fields =>
      validator.run (getProp data key)
        (fun value =>
          match expectingObjectLoop data fields with
          | .pass obj => .pass ((key, value) :: obj)
          | .fail reason => .fail reason)
        (fun reason => .fail (.field key reason))

/-- `expectingObject` from `src/index.ts`: the guard
`typeof data !== 'object' || data === null` fails with
`Expectation{actual: Utils.typeOf(data), expected: 'object'}`; otherwise the
field loop runs and a fully passing loop yields the freshly built object. -/
def expectingObject (fields : List (String × Validator)) (data : JsValue) :
    Result JsValue Problem :=
  if jsTypeof data ≠ "object" ∨ data = JsValue.null then
    .fail (.expectation "object" (Utils.typeOf data))
  else
    match expectingObjectLoop data fields with
    | .pass obj => .pass (.obj obj)
    | .fail reason => .fail reason

/-- The `Expect.boolean` primitive validator. -/
def Expect.boolean : Validator := toValidator (expecting "boolean")

/-- The `Expect.number` primitive validator. -/
def Expect.number : Validator := toValidator (expecting "number")

/-- The `Expect.string` primitive validator. -/
def Expect.string : Validator := toValidator (expecting "string")

/-- The `Expect.null` primitive validator. -/
def Expect.null : Validator := toValidator expectingNull

/-- The `Expect.object` combinator; a fields descriptor is the declared
mapping from field name to child validator, in declaration order. -/
def Expect.object (fields : List (String × Validator)) : Validator :=
  toValidator (expectingObject fields)

/-- The `Expect.array` combinator. -/
def Expect.array (validator : Validator) : Validator :=
  toValidator (expectingArray validator)

/-- The `Expect.optional` combinator. -/
def Expect.optional (validator : Validator) : Validator :=
  toValidator (expectingOptional validator)

/-- The value a validator produces on a passing input (and `undefined` on a
failing one); used to phrase the output of the aggregate combinators. -/
def validatedValue (v : Validator) (data : JsValue) : JsValue :=
  match v.toResult data with
  | .pass value => value
  | .fail _ => .undefined

/-- `run` forwards a passing classification to `onPass`. -/
theorem Validator.run_pass {α : Type} (v : Validator) (data : JsValue)
    (onPass : JsValue → α) (onFail : Problem → α) (value : JsValue)
    (h : v.toResult data = .pass value) :
    v.run data onPass onFail = onPass value := by
  unfold Validator.run
  rw [h]

/-- `run` forwards a failing classification to `onFail`. -/
theorem Validator.run_fail {α : Type} (v : Validator) (data : JsValue)
    (onPass : JsValue → α) (onFail : Problem → α) (reason : Problem)
    (h : v.toResult data = .fail reason) :
    v.run data onPass onFail = onFail reason := by
  unfold Validator.run
  rw [h]

/-- `worksWith` is the passing test on the classification. -/
theorem Validator.worksWith_iff_pass (v : Validator) (data : JsValue) :
    v.worksWith data = true ↔ ∃ value, v.toResult data = .pass value := by
  unfold Validator.worksWith
  cases h : v.toResult data <;> simp

/-- On a passing input, `validatedValue` is the value the classification
passed with. -/
theorem validatedValue_of_pass (v : Validator) (data value : JsValue)
    (h : v.toResult data = .pass value) :
    validatedValue v data = value := by
  unfold validatedValue
  rw [h]

/-- Unfolding the object field loop one step when the head field's validator
passes. -/
theorem expectingObjectLoop_cons_pass (data : JsValue) (key : String)
    (validator : Validator) (fields : List (String × Validator))
    (value : JsValue) (h : validator.toResult (getProp data key) = .pass value) :
    expectingObjectLoop data ((key, validator) :: fields) =
      match expectingObjectLoop data fields with
      | .pass obj => .pass ((key, value) :: obj)
      | .fail reason => .fail reason := by
  show Validator.run _ _ _ _ = _
  rw [Validator.run_pass _ _ _ _ value h]

/-- Unfolding the object field loop one step when the head field's validator
fails. -/
theorem expectingObjectLoop_cons_fail (data : JsValue) (key : String)
    (validator : Validator) (fields : List (String × Validator))
    (p : Problem) (h : validator.toResult (getProp data key) = .fail p) :
    expectingObjectLoop data ((key, validator) :: fields) =
      .fail (.field key p) := by
  show Validator.run _ _ _ _ = _
  rw [Validator.run_fail _ _ _ _ p h]

/-- Every failure of the object field loop is a field problem. -/
theorem expectingObjectLoop_fail_is_field (data : JsValue) :
    ∀ (fields : List (String × Validator)) (r : Problem),
      expectingObjectLoop data fields = .fail r → ∃ k p, r = .field k p := by
  intro fields
  induction fields with
  | nil => intro r h; exact absurd h (by simp [expectingObjectLoop])
  | cons kv rest ih =>
    obtain ⟨key, validator⟩ := kv
    intro r h
    cases hv : validator.toResult (getProp data key) with
    | pass value =>
      rw [expectingObjectLoop_cons_pass data key validator rest value hv] at h
      cases hrest : expectingObjectLoop data rest with
      | pass obj => rw [hrest] at h; exact absurd h (by simp)
      | fail r0 =>
        rw [hrest] at h
        obtain rfl : r0 = r := by injection h
        exact ih _ hrest
    | fail p =>
      rw [expectingObjectLoop_cons_fail data key validator rest p hv] at h
      obtain rfl : Problem.field key p = r := by injection h
      exact ⟨key, p, rfl⟩

/-- When every declared field's validator passes, the object field loop
passes with the declared keys mapped, in declaration order, to their
validated values. -/
theorem expectingObjectLoop_all_pass (data : JsValue) :
    ∀ (fields : List (String × Validator)),
      (∀ kv ∈ fields, kv.2.worksWith (getProp data kv.1) = true) →
      expectingObjectLoop data fields =
        .pass (fields.map fun kv => (kv.1, validatedValue kv.2 (getProp data kv.1))) := by
  intro fields
  induction fields with
  | nil => intro _; rfl
  | cons kv rest ih =>
    obtain ⟨key, validator⟩ := kv
    intro hpass
    obtain ⟨value, hv⟩ := (validator.worksWith_iff_pass (getProp data key)).mp
      (hpass (key, validator) (List.mem_cons_self _ _))
    rw [expectingObjectLoop_cons_pass data key validator rest value hv,
      ih (fun kv hkv => hpass kv (List.mem_cons_of_mem _ hkv))]
    simp [validatedValue_of_pass validator (getProp data key) value hv]

/-- When the first k fields pass and field k+1 fails, the object field loop
fails with that field's problem, whatever the remaining fields are. -/
theorem expectingObjectLoop_first_fail (data : JsValue) (k : String)
    (vk : Validator) (F2 : List (String × Validator)) (p : Problem)
    (hfail : vk.toResult (getProp data k) = .fail p) :
    ∀ (F1 : List (String × Validator)),
      (∀ kv ∈ F1, kv.2.worksWith (getProp data kv.1) = true) →
      expectingObjectLoop data (F1 ++ (k, vk) :: F2) = .fail (.field k p) := by
  intro F1
  induction F1 with
  | nil =>
    intro _
    exact expectingObjectLoop_cons_fail data k vk F2 p hfail
  | cons kv rest ih =>
    obtain ⟨key, validator⟩ := kv
    intro hpass
    obtain ⟨value, hv⟩ := (validator.worksWith_iff_pass (getProp data key)).mp
      (hpass (key, validator) (List.mem_cons_self _ _))
    rw [List.cons_append,
      expectingObjectLoop_cons_pass data key validator _ value hv,
      ih (fun kv hkv => hpass kv (List.mem_cons_of_mem _ hkv))]

/-- Unfolding the array element loop one step when the head element
passes. -/
theorem expectingArrayLoop_cons_pass (validator : Validator) (x : JsValue)
    (xs : List JsValue) (index : Nat) (value : JsValue)
    (h : validator.toResult x = .pass value) :
    expectingArrayLoop validator (x :: xs) index =
      match expectingArrayLoop validator xs (index + 1) with
      | .pass values => .pass (value :: values)
      | .fail reason => .fail reason := by
  show Validator.run _ _ _ _ = _
  rw [Validator.run_pass _ _ _ _ value h]

/-- Unfolding the array element loop one step when the head element
fails. -/
theorem expectingArrayLoop_cons_fail (validator : Validator) (x : JsValue)
    (xs : List JsValue) (index : Nat) (p : Problem)
    (h : validator.toResult x = .fail p) :
    expectingArrayLoop validator (x :: xs) index = .fail (.index index p) := by
  show Validator.run _ _ _ _ = _
  rw [Validator.run_fail _ _ _ _ p h]

/-- When every element passes, the array element loop passes with the
validated values in order. -/
theorem expectingArrayLoop_all_pass (validator : Validator) :
    ∀ (xs : List JsValue) (index : Nat),
      (∀ y ∈ xs, validator.worksWith y = true) →
      expectingArrayLoop validator xs index =
        .pass (xs.map (validatedValue validator)) := by
  intro xs
  induction xs with
  | nil => intro index _; rfl
  | cons x rest ih =>
    intro index hpass
    obtain ⟨value, hv⟩ := (validator.worksWith_iff_pass x).mp
      (hpass x (List.mem_cons_self _ _))
    rw [expectingArrayLoop_cons_pass validator x rest index value hv,
      ih (index + 1) (fun y hy => hpass y (List.mem_cons_of_mem _ hy))]
    simp [validatedValue_of_pass validator x value hv]

/-- When the elements before position `i` all pass and the element at `i`
fails, the array element loop fails with `IndexProblem` at `i`, whatever
the later elements are. -/
theorem expectingArrayLoop_first_fail (validator : Validator) (x : JsValue)
    (xs2 : List JsValue) (p : Problem)
    (hfail : validator.toResult x = .fail p) :
    ∀ (xs1 : List JsValue) (index : Nat),
      (∀ y ∈ xs1, validator.worksWith y = true) →
      expectingArrayLoop validator (xs1 ++ x :: xs2) index =
        .fail (.index (index + xs1.length) p) := by
  intro xs1
  induction xs1 with
  | nil =>
    intro index _
    rw [List.nil_append, expectingArrayLoop_cons_fail validator x xs2 index p hfail]
    simp
  | cons y rest ih =>
    intro index hpass
    obtain ⟨value, hv⟩ := (validator.worksWith_iff_pass y).mp
      (hpass y (List.mem_cons_self _ _))
    rw [List.cons_append,
      expectingArrayLoop_cons_pass validator y _ index value hv,
      ih (index + 1) (fun z hz => hpass z (List.mem_cons_of_mem _ hz))]
    have harith : index + 1 + rest.length = index + (y :: rest).length := by
      simp [List.length_cons]
      omega
    rw [harith]

/-- When the input survives the guard `typeof data !== 'object' || data ===
null`, the object validator is the field loop (with the passing loop's
entries wrapped as an object). -/
theorem expectingObject_guard_false (fields : List (String × Validator))
    (data : JsValue) (hobj : jsTypeof data = "object")
    (hnn : data ≠ JsValue.null) :
    expectingObject fields data =
      match expectingObjectLoop data fields with
      | .pass obj => .pass (.obj obj)
      | .fail reason => .fail reason := by
  unfold expectingObject
  rw [if_neg]
  simp [hobj, hnn]

/-- C2: for every primitive validator and every input value, `worksWith` is
true exactly when the value's type-name classification (`Utils.typeOf`:
`"array"` for arrays, `"null"` for null, otherwise the host `typeof` name)
equals the primitive's expected name; in particular `undefined` satisfies no
primitive, no coercion occurs, and `NaN` and the infinities satisfy the
number primitive. -/
theorem primitive_worksWith_iff_typeOf (v : JsValue) :
    (Expect.boolean.worksWith v = true ↔ Utils.typeOf v = "boolean") ∧
    (Expect.number.worksWith v = true ↔ Utils.typeOf v = "number") ∧
    (Expect.string.worksWith v = true ↔ Utils.typeOf v = "string") ∧
    (Expect.null.worksWith v = true ↔ Utils.typeOf v = "null") ∧
    Expect.number.worksWith (.num .nan) = true ∧
    Expect.number.worksWith (.num .inf) = true ∧
    Expect.number.worksWith (.num .negInf) = true ∧
    Expect.boolean.worksWith .undefined = false ∧
    Expect.number.worksWith .undefined = false ∧
    Expect.string.worksWith .undefined = false ∧
    Expect.null.worksWith .undefined = false := by
  refine ⟨?_, ?_, ?_, ?_, rfl, rfl, rfl, rfl, rfl, rfl, rfl⟩ <;>
    cases v <;>
      simp [Expect.boolean, Expect.number, Expect.string, Expect.null,
        toValidator, Validator.worksWith, expecting, expectingNull,
        jsTypeof, Utils.typeOf]

/-- C6: `optional(v)` never fails: it passes with the child's value when the
child passes, and passes with `undefined` when the child fails for any
reason, so `worksWith` is true on every input. -/
theorem optional_never_fails (child : Validator) (data : JsValue) :
    (Expect.optional child).worksWith data = true ∧
    (∀ value, child.toResult data = .pass value →
      (Expect.optional child).toResult data = .pass value) ∧
    (∀ p, child.toResult data = .fail p →
      (Expect.optional child).toResult data = .pass .undefined) := by
  refine ⟨?_, ?_, ?_⟩
  · cases h : child.toResult data <;>
      simp [Validator.worksWith, Expect.optional, toValidator,
        expectingOptional, Validator.run, h]
  · intro value h
    show expectingOptional child data = _
    unfold expectingOptional
    rw [Validator.run_pass child data _ _ value h]
  · intro p h
    show expectingOptional child data = _
    unfold expectingOptional
    rw [Validator.run_fail child data _ _ p h]

/-- Closed witness for C6: `optional(number)` passes with the number on a
numeric input and with `undefined` on a string input. -/
theorem optional_never_fails_witness :
    (Expect.optional Expect.number).toResult (.num (.finite 123)) =
      .pass (.num (.finite 123)) ∧
    (Expect.optional Expect.number).toResult (.str "str") = .pass .undefined :=
  ⟨(optional_never_fails Expect.number (.num (.finite 123))).2.1
      (.num (.finite 123)) rfl,
   (optional_never_fails Expect.number (.str "str")).2.2
      (.expectation "number" "string") rfl⟩

/-- C7: the rendering of a `Problem` follows the recursive format exactly —
an expectation renders as `Expected {expected}, got {actual}.`, a field
problem prefixes `Problem with field "{field}": `, an index problem
prefixes `Problem at index "{index}": `, recursing to full depth; the
spec's concrete example renders exactly as stated. -/
theorem problem_toString_format (expected actual f : String) (i : Nat)
    (p : Problem) :
    Problem.toString (.expectation expected actual) =
      "Expected " ++ expected ++ ", got " ++ actual ++ "." ∧
    Problem.toString (.field f p) =
      "Problem with field \"" ++ f ++ "\": " ++ Problem.toString p ∧
    Problem.toString (.index i p) =
      "Problem at index \"" ++ toString i ++ "\": " ++ Problem.toString p ∧
    Problem.toString (.field "age" (.expectation "number" "string")) =
      "Problem with field \"age\": Expected number, got string." := by
  refine ⟨?_, ?_, ?_, ?_⟩ <;>
    simp [Problem.toString, toString, String.append_assoc]

/-- C10: `optional` is idempotent — `optional(optional(v))` classifies every
input exactly as `optional(v)` does. -/
theorem optional_idempotent (child : Validator) (data : JsValue) :
    (Expect.optional (Expect.optional child)).toResult data =
      (Expect.optional child).toResult data := by
  cases h : child.toResult data <;>
    simp [Expect.optional, toValidator, expectingOptional, Validator.run, h]

/-- C1 counterexample: an array input is classified `"array"` by
`Utils.typeOf`, yet the object validator does not fail it with
`Expectation{expected:"object", actual:"array"}` — the guard
`typeof data !== 'object'` lets arrays through (host `typeof` of an array
is `"object"`), so with no declared fields the validator passes on `[]`,
and with a declared field `a` it proceeds to check that field and fails
with a field problem instead. -/
theorem object_array_input_cex :
    Utils.typeOf (JsValue.arr []) = "array" ∧
    (Expect.object []).worksWith (JsValue.arr []) = true ∧
    (Expect.object [("a", Expect.string)]).toResult (JsValue.arr []) =
      .fail (.field "a" (.expectation "string" "undefined")) ∧
    (Expect.object [("a", Expect.string)]).toResult (JsValue.arr []) ≠
      .fail (.expectation "object" "array") := by
  refine ⟨rfl, rfl, rfl, ?_⟩
  intro h
  rw [show (Expect.object [("a", Expect.string)]).toResult (JsValue.arr []) =
      .fail (.field "a" (.expectation "string" "undefined")) from rfl] at h
  simp at h

/-- C1 (amended): the object validator does not reject array inputs at the
type check — an array input always proceeds to the declared-fields loop, so
on an array the object validator either passes (with the freshly built
object) or fails with a `FieldProblem`; it never produces the top-level
`Expectation{expected:"object", actual:"array"}` the claim states. -/
theorem object_on_array_checks_fields (F : List (String × Validator))
    (elems : List JsValue) :
    (∃ entries, (Expect.object F).toResult (JsValue.arr elems) =
      .pass (.obj entries)) ∨
    (∃ k p, (Expect.object F).toResult (JsValue.arr elems) =
      .fail (.field k p)) := by
  have hguard := expectingObject_guard_false F (JsValue.arr elems) rfl
    (fun h => JsValue.noConfusion h)
  show (∃ entries, expectingObject F (JsValue.arr elems) = _) ∨
    (∃ k p, expectingObject F (JsValue.arr elems) = _)
  rw [hguard]
  cases hloop : expectingObjectLoop (JsValue.arr elems) F with
  | pass obj => exact Or.inl ⟨obj, rfl⟩
  | fail r =>
    obtain ⟨k, p, rfl⟩ := expectingObjectLoop_fail_is_field _ _ _ hloop
    exact Or.inr ⟨k, p, rfl⟩

/-- C3: for a fields descriptor split as earlier fields (all of which pass
on the input), a failing field `k`, and arbitrary later fields, the object
validator on a guard-passing input fails with `FieldProblem{field: k,
inner: p}` where `p` is the failing field's problem — the later declared
fields do not affect the outcome, so the first failing field in declaration
order is always the one reported. -/
theorem object_first_failing_field (F1 F2 : List (String × Validator))
    (k : String) (vk : Validator) (data : JsValue) (p : Problem)
    (hobj : jsTypeof data = "object") (hnn : data ≠ JsValue.null)
    (hpass : ∀ kv ∈ F1, kv.2.worksWith (getProp data kv.1) = true)
    (hfail : vk.toResult (getProp data k) = .fail p) :
    (Expect.object (F1 ++ (k, vk) :: F2)).toResult data =
      .fail (.field k p) := by
  show expectingObject _ data = _
  rw [expectingObject_guard_false _ data hobj hnn,
    expectingObjectLoop_first_fail data k vk F2 p hfail F1 hpass]

/-- Closed witness for C3: fields `{a: string, b: string}` against
`{a:1, b:2}` fail on `"a"`, not `"b"`. -/
theorem object_first_failing_field_witness :
    (Expect.object [("a", Expect.string), ("b", Expect.string)]).toResult
        (.obj [("a", .num (.finite 1)), ("b", .num (.finite 2))]) =
      .fail (.field "a" (.expectation "string" "number")) :=
  object_first_failing_field [] [("b", Expect.string)] "a" Expect.string
    (.obj [("a", .num (.finite 1)), ("b", .num (.finite 2))])
    (.expectation "string" "number") rfl (fun h => JsValue.noConfusion h)
    (by decide) rfl

/-- C4: when every declared field's validator passes on the (guard-passing)
input, the object validator passes with a freshly built object whose
entries are exactly the declared field names, in declaration order, each
mapped to its validator's validated value — undeclared input keys never
appear; and a key absent from an input object reads as `undefined`, which
is what an absent declared key feeds to its child validator. -/
theorem object_all_pass_output (F : List (String × Validator))
    (data : JsValue) (hobj : jsTypeof data = "object")
    (hnn : data ≠ JsValue.null)
    (hpass : ∀ kv ∈ F, kv.2.worksWith (getProp data kv.1) = true) :
    (Expect.object F).toResult data =
      .pass (.obj (F.map fun kv =>
        (kv.1, validatedValue kv.2 (getProp data kv.1)))) ∧
    ∀ (entries : List (String × JsValue)) (key : String),
      entries.lookup key = none → getProp (.obj entries) key = .undefined := by
  constructor
  · show expectingObject F data = _
    rw [expectingObject_guard_false F data hobj hnn,
      expectingObjectLoop_all_pass data F hpass]
  · intro entries key h
    simp [getProp, h]

/-- Closed witness for C4: fields `{a: string, b: number}` on
`{a:"x", b:1, c:true}` pass with output `{a:"x", b:1}` — the undeclared
key `c` is dropped. -/
theorem object_all_pass_output_witness :
    (Expect.object [("a", Expect.string), ("b", Expect.number)]).toResult
        (.obj [("a", .str "x"), ("b", .num (.finite 1)), ("c", .bool true)]) =
      .pass (.obj [("a", .str "x"), ("b", .num (.finite 1))]) :=
  (object_all_pass_output [("a", Expect.string), ("b", Expect.number)]
    (.obj [("a", .str "x"), ("b", .num (.finite 1)), ("c", .bool true)])
    rfl (fun h => JsValue.noConfusion h) (by decide)).1.trans rfl

/-- C5: the array validator fails any non-array input with
`Expectation{expected:"array", actual}`; on an array it checks elements in
index order and, at the first failing index `i`, fails with
`IndexProblem{index: i, inner}` independently of the later elements; when
every element passes it passes with the ordered sequence of validated
values (same length and order), and the empty array passes with the empty
output. -/
theorem array_validator_contract (child : Validator) :
    (∀ data, Utils.typeOf data ≠ "array" →
      (Expect.array child).toResult data =
        .fail (.expectation "array" (Utils.typeOf data))) ∧
    (∀ (xs1 : List JsValue) (x : JsValue) (xs2 : List JsValue) (p : Problem),
      (∀ y ∈ xs1, child.worksWith y = true) →
      child.toResult x = .fail p →
      (Expect.array child).toResult (.arr (xs1 ++ x :: xs2)) =
        .fail (.index xs1.length p)) ∧
    (∀ xs : List JsValue, (∀ y ∈ xs, child.worksWith y = true) →
      (Expect.array child).toResult (.arr xs) =
        .pass (.arr (xs.map (validatedValue child)))) ∧
    (Expect.array child).toResult (.arr []) = .pass (.arr []) := by
  refine ⟨?_, ?_, ?_, rfl⟩
  · intro data h
    cases data with
    | arr elems => exact absurd rfl h
    | _ => rfl
  · intro xs1 x xs2 p hpass hfail
    show expectingArray child (.arr (xs1 ++ x :: xs2)) = _
    simp only [expectingArray]
    rw [expectingArrayLoop_first_fail child x xs2 p hfail xs1 0 hpass,
      Nat.zero_add]
  · intro xs hpass
    show expectingArray child (.arr xs) = _
    simp only [expectingArray]
    rw [expectingArrayLoop_all_pass child xs 0 hpass]

/-- Closed witness for C5: `array(number)` on `[1, 2, "3"]` fails with
`IndexProblem{index: 2}` wrapping the number expectation, and on `null`
fails with the array expectation. -/
theorem array_validator_contract_witness :
    (Expect.array Expect.number).toResult
        (.arr [.num (.finite 1), .num (.finite 2), .str "3"]) =
      .fail (.index 2 (.expectation "number" "string")) ∧
    (Expect.array Expect.number).toResult .null =
      .fail (.expectation "array" "null") :=
  ⟨(array_validator_contract Expect.number).2.1
      [.num (.finite 1), .num (.finite 2)] (.str "3") []
      (.expectation "number" "string") (by decide) rfl,
   (array_validator_contract Expect.number).1 .null (by decide)⟩

/-- A passing array element loop relates input elements and output values
pointwise: the output is exactly the child's passing value at each
position. -/
theorem expectingArrayLoop_pass_forall2 (validator : Validator) :
    ∀ (xs : List JsValue) (index : Nat) (values : List JsValue),
      expectingArrayLoop validator xs index = .pass values →
      List.Forall₂ (fun x y => validator.toResult x = .pass y) xs values := by
  intro xs
  induction xs with
  | nil =>
    intro index values h
    obtain rfl : ([] : List JsValue) = values := by injection h
    exact List.Forall₂.nil
  | cons x rest ih =>
    intro index values h
    cases hv : validator.toResult x with
    | pass value =>
      rw [expectingArrayLoop_cons_pass validator x rest index value hv] at h
      cases hrest : expectingArrayLoop validator rest (index + 1) with
      | pass vs =>
        rw [hrest] at h
        obtain rfl : value :: vs = values := by injection h
        exact List.Forall₂.cons hv (ih (index + 1) vs hrest)
      | fail r => rw [hrest] at h; exact absurd h (by simp)
    | fail p =>
      rw [expectingArrayLoop_cons_fail validator x rest index p hv] at h
      exact absurd h (by simp)

/-- A passing object field loop relates declared fields and output entries
pointwise: each output entry carries the declared key and the value its
validator passed with on `data[key]`. -/
theorem expectingObjectLoop_pass_forall2 (data : JsValue) :
    ∀ (fields : List (String × Validator))
      (entries : List (String × JsValue)),
      expectingObjectLoop data fields = .pass entries →
      List.Forall₂ (fun kv e => e.1 = kv.1 ∧
        kv.2.toResult (getProp data kv.1) = .pass e.2) fields entries := by
  intro fields
  induction fields with
  | nil =>
    intro entries h
    obtain rfl : ([] : List (String × JsValue)) = entries := by injection h
    exact List.Forall₂.nil
  | cons kv rest ih =>
    obtain ⟨key, validator⟩ := kv
    intro entries h
    cases hv : validator.toResult (getProp data key) with
    | pass value =>
      rw [expectingObjectLoop_cons_pass data key validator rest value hv] at h
      cases hrest : expectingObjectLoop data rest with
      | pass obj =>
        rw [hrest] at h
        obtain rfl : (key, value) :: obj = entries := by injection h
        exact List.Forall₂.cons ⟨rfl, hv⟩ (ih obj hrest)
      | fail r => rw [hrest] at h; exact absurd h (by simp)
    | fail p =>
      rw [expectingObjectLoop_cons_fail data key validator rest p hv] at h
      exact absurd h (by simp)

/-- C8: round-trip — whenever a factory-built validator passes, its output
is the accepted substructure of the input: a passing primitive check
returns the input value itself; a passing array validator returns a
sequence pointwise made of the child's validated values of the input's
elements (hence same length and order); a passing object validator returns
entries pointwise carrying the declared field names with their validated
values; a passing optional returns the child's value or `undefined`.
Because these hold for arbitrary child validators, they compose through
arbitrary nesting. -/
theorem roundtrip_pass_structural :
    (∀ (expected : String) (data out : JsValue),
      expecting expected data = .pass out → out = data) ∧
    (∀ (data out : JsValue), expectingNull data = .pass out → out = data) ∧
    (∀ (child : Validator) (elems : List JsValue) (out : JsValue),
      (Expect.array child).toResult (.arr elems) = .pass out →
      ∃ values, out = .arr values ∧
        List.Forall₂ (fun x y => child.toResult x = .pass y) elems values) ∧
    (∀ (F : List (String × Validator)) (data out : JsValue),
      (Expect.object F).toResult data = .pass out →
      ∃ entries, out = .obj entries ∧
        List.Forall₂ (fun kv e => e.1 = kv.1 ∧
          kv.2.toResult (getProp data kv.1) = .pass e.2) F entries) ∧
    (∀ (child : Validator) (data out : JsValue),
      (Expect.optional child).toResult data = .pass out →
      child.toResult data = .pass out ∨ out = .undefined) := by
  refine ⟨?_, ?_, ?_, ?_, ?_⟩
  · intro expected data out h
    unfold expecting at h
    split at h
    · injection h with h'
      exact h'.symm
    · exact absurd h (by simp)
  · intro data out h
    unfold expectingNull at h
    split at h
    · injection h with h'
      exact h'.symm
    · exact absurd h (by simp)
  · intro child elems out h
    replace h : expectingArray child (.arr elems) = .pass out := h
    simp only [expectingArray] at h
    cases hloop : expectingArrayLoop child elems 0 with
    | pass values =>
      rw [hloop] at h
      obtain rfl : JsValue.arr values = out := by injection h
      exact ⟨values, rfl, expectingArrayLoop_pass_forall2 child elems 0 values hloop⟩
    | fail r => rw [hloop] at h; exact absurd h (by simp)
  · intro F data out h
    replace h : expectingObject F data = .pass out := h
    unfold expectingObject at h
    split at h
    · exact absurd h (by simp)
    · cases hloop : expectingObjectLoop data F with
      | pass obj =>
        rw [hloop] at h
        obtain rfl : JsValue.obj obj = out := by injection h
        exact ⟨obj, rfl, expectingObjectLoop_pass_forall2 data F obj hloop⟩
      | fail r => rw [hloop] at h; exact absurd h (by simp)
  · intro child data out h
    replace h : expectingOptional child data = .pass out := h
    unfold expectingOptional at h
    cases hchild : child.toResult data with
    | pass value =>
      rw [Validator.run_pass child data _ _ value hchild] at h
      obtain rfl : value = out := by injection h
      exact Or.inl rfl
    | fail p =>
      rw [Validator.run_fail child data _ _ p hchild] at h
      obtain rfl : JsValue.undefined = out := by injection h
      exact Or.inr rfl

/-- Closed witness for C8: the array validator's pass on `[1, 2]` yields
values pointwise passed by the number primitive. -/
theorem roundtrip_pass_structural_witness :
    ∃ values, JsValue.arr [.num (.finite 1), .num (.finite 2)] = .arr values ∧
      List.Forall₂ (fun x y => Expect.number.toResult x = .pass y)
        [JsValue.num (.finite 1), JsValue.num (.finite 2)] values :=
  roundtrip_pass_structural.2.2.1 Expect.number
    [.num (.finite 1), .num (.finite 2)]
    (.arr [.num (.finite 1), .num (.finite 2)]) rfl

/-- C9: `worksWith(data)` is true exactly when the classification passes,
and `run` invokes the matching handler with the unwrapped value (on pass)
or the problem (on fail) and returns that handler's result — the returned
`Sum` tag records which of the two handlers ran. -/
theorem run_worksWith_contract (v : Validator) (data : JsValue) :
    (v.worksWith data = true ↔ ∃ value, v.toResult data = .pass value) ∧
    (∀ (α β : Type) (onPass : JsValue → α) (onFail : Problem → β)
      (value : JsValue), v.toResult data = .pass value →
      v.run data (fun x => Sum.inl (onPass x)) (fun r => Sum.inr (onFail r)) =
        Sum.inl (onPass value)) ∧
    (∀ (α β : Type) (onPass : JsValue → α) (onFail : Problem → β)
      (reason : Problem), v.toResult data = .fail reason →
      v.run data (fun x => Sum.inl (onPass x)) (fun r => Sum.inr (onFail r)) =
        Sum.inr (onFail reason)) :=
  ⟨v.worksWith_iff_pass data,
   fun _ _ _ _ value h => Validator.run_pass v data _ _ value h,
   fun _ _ _ _ reason h => Validator.run_fail v data _ _ reason h⟩

/-- Closed witness for C9: on a passing input `run` returns the `onPass`
result, on a failing input the `onFail` result. -/
theorem run_worksWith_contract_witness :
    Expect.number.run (.num (.finite 5))
        (fun x => Sum.inl (id x)) (fun r => Sum.inr (id r)) =
      (Sum.inl (id (JsValue.num (.finite 5))) : JsValue ⊕ Problem) ∧
    Expect.string.run (.num (.finite 5))
        (fun x => Sum.inl (id x)) (fun r => Sum.inr (id r)) =
      (Sum.inr (id (Problem.expectation "string" "number")) : JsValue ⊕ Problem) :=
  ⟨(run_worksWith_contract Expect.number (.num (.finite 5))).2.1
      JsValue Problem id id _ rfl,
   (run_worksWith_contract Expect.string (.num (.finite 5))).2.2
      JsValue Problem id id _ rfl⟩

end SafeJson
